import Mathlib

/-!
# Shallow embedding of the cancan authorization engine (src/index.js)

JavaScript runtime values are modelled by `JSValue`.  Actor and target
objects carry an explicit constructor tag (a `String`), so runtime-type
identity (`x.constructor === C`) becomes tag equality.  The registry of
entity configurations, which the source keeps in a module-level mutable
array, is passed explicitly as a `List EntityConfig`.

The asynchronous machinery of the source (`co`, promises, generator
predicates) is modelled by letting every attribute predicate return its
resolved `JSValue` directly: `yield attrsMatch(args, rule)` in the source
corresponds to reading that value.  Thrown errors become `Except`.
-/

namespace CanCan

/-- A JavaScript value, deep enough for the structural comparisons the
engine performs (`dict` is a plain object, `list` an array). -/
inductive JSValue : Type where
  | undefined : JSValue
  | null : JSValue
  | bool : Bool → JSValue
  | num : Int → JSValue
  | str : String → JSValue
  | list : List JSValue → JSValue
  | dict : List (String × JSValue) → JSValue

/-- Strict equality against the literal `true` (`r === true` in the
source). -/
def JSValue.isTrue : JSValue → Bool
  | .bool true => true
  | _ => false

/-- The `typeof r === 'undefined'` test of the source. -/
def JSValue.isUndefined : JSValue → Bool
  | .undefined => true
  | _ => false

/-- JavaScript truthiness, as consumed by the `!result` in `cannot`. -/
def jsTruthy : JSValue → Bool
  | .undefined => false
  | .null => false
  | .bool b => b
  | .num n => n != 0
  | .str s => s != ""
  | .list _ => true
  | .dict _ => true

/-- Modelled from the spec: the deep-equality comparator (the external
`equals` dependency, not part of this repository): structural value
comparison, recursing through arrays and plain objects. -/
def jsEquals : JSValue → JSValue → Bool
  | .undefined, .undefined => true
  | .null, .null => true
  | .bool a, .bool b => a == b
  | .num a, .num b => a == b
  | .str a, .str b => a == b
  | .list [], .list [] => true
  | .list (a :: as), .list (b :: bs) =>
      jsEquals a b && jsEquals (.list as) (.list bs)
  | .dict [], .dict [] => true
  | .dict ((k, a) :: as), .dict ((k2, b) :: bs) =>
      k == k2 && jsEquals a b && jsEquals (.dict as) (.dict bs)
  | _, _ => false
termination_by a _ => sizeOf a

/-- A target object: its runtime constructor tag, its own fields, and an
optional callable `get` member (ORM/ODM accessor).  A field absent from
`fields` reads as `undefined`, as in JavaScript. -/
structure Target : Type where
  ctor : String
  fields : List (String × JSValue)
  getMember : Option (String → JSValue)

/-- An actor ("model") instance: its runtime constructor tag and its own
state, which configuration callbacks may branch on. -/
structure Actor : Type where
  ctor : String
  fields : List (String × JSValue)

/-- The target slot of a rule: either a class, modelled by its tag, or
the wildcard string `"all"`.  A class is never equal to the string, which
the two constructors keep apart. -/
inductive TargetType : Type where
  | cls : String → TargetType
  | all : TargetType
deriving DecidableEq

/-- The data of the rule on which a predicate is invoked: the source
calls `rule.attrs.apply(rule, args)`, so `this` inside the predicate is
the rule itself.  In a pure embedding the predicate observes the rule's
`action` and `target` fields (the function slot cannot observe itself). -/
structure Receiver : Type where
  action : String
  target : TargetType

/-- A defined JavaScript value that is neither callable nor a plain
object: both `is-function` and `is-plain-obj` reject it (for example a
string, a number, `null`, or an array). -/
inductive NonObjVal : Type where
  | null : NonObjVal
  | bool : Bool → NonObjVal
  | num : Int → NonObjVal
  | str : String → NonObjVal
  | arr : List JSValue → NonObjVal

/-- The `attrs` slot of a rule, split along the runtime-type dispatch of
`attrsMatch` (`isFunction` / `isPlainObject` / anything else /
omitted).  A predicate returns its resolved value directly. -/
inductive Attrs : Type where
  | undef : Attrs
  | fn : (Receiver → Target → List JSValue → JSValue) → Attrs
  | obj : List (String × JSValue) → Attrs
  | other : NonObjVal → Attrs

/-- One permission rule, as pushed by `addRule`. -/
structure Rule : Type where
  action : String
  target : TargetType
  attrs : Attrs

/-- An ability: the ordered rule list built for one evaluation. -/
structure Ability : Type where
  rules : List Rule

/-- An argument that is either a single item or an array; `addRule`
wraps a non-array into a one-element array. -/
inductive Arg (α : Type) : Type where
  | single : α → Arg α
  | arr : List α → Arg α

/-- The `if (!isArray(x)) x = [x]` normalisation of `addRule`. -/
def Arg.toList {α : Type} : Arg α → List α
  | .single a => [a]
  | .arr xs => xs

/-- `Ability.prototype.addRule`: for each action, for each target, push
one rule carrying the given `attrs` value. -/
def Ability.addRule (ab : Ability) (actions : Arg String)
    (targets : Arg TargetType) (attrs : Attrs) : Ability :=
  (Arg.toList actions).foldl
    (fun ab1 action =>
      (Arg.toList targets).foldl
        (fun ab2 target => { rules := ab2.rules ++ [⟨action, target, attrs⟩] })
        ab1)
    ab

/-- `Ability.prototype.can`, an alias that forwards to `addRule`. -/
def Ability.can (ab : Ability) (actions : Arg String)
    (targets : Arg TargetType) (attrs : Attrs) : Ability :=
  Ability.addRule ab actions targets attrs

/-- `actionMatches(action, rule)`. -/
def actionMatches (action : String) (rule : Rule) : Bool :=
  action == rule.action || rule.action == "manage"

/-- `targetMatches(target, rule)`. -/
def targetMatches (target : Target) (rule : Rule) : Bool :=
  TargetType.cls target.ctor == rule.target || rule.target == TargetType.all

/-- Direct field access `obj[property]`; an absent property reads as
`undefined`. -/
def lookupField (fields : List (String × JSValue)) (property : String) : JSValue :=
  match fields.find? (fun kv => kv.1 == property) with
  | some kv => kv.2
  | none => JSValue.undefined

/-- The property accessor `get(model, property)`: use the callable `get`
member when the object has one, otherwise read the field directly. -/
def get (model : Target) (property : String) : JSValue :=
  match model.getMember with
  | some g => g property
  | none => lookupField model.fields property

/-- `matches(obj, props)`: the source's forEach loop over the keys of
`props`, clearing a `match` flag on every key whose fetched value is not
deep-equal to the expected one. -/
def jsMatches (obj : Target) (props : List (String × JSValue)) : Bool :=
  props.foldl (fun m kv => if jsEquals (get obj kv.1) kv.2 then m else false) true

/-- `attrsMatch(args, rule)` with `args = target :: extra`: the resolved
value of the rule's attribute constraint. -/
def attrsMatch (target : Target) (extra : List JSValue) (rule : Rule) : JSValue :=
  match rule.attrs with
  | .fn p => p ⟨rule.action, rule.target⟩ target extra
  | .obj props => JSValue.bool (jsMatches target props)
  | .undef => JSValue.bool true
  | .other _ => JSValue.bool true

/-- The guard of the scan loop in `Ability.prototype.test`. -/
def ruleApplies (action : String) (target : Target) (rule : Rule) : Bool :=
  actionMatches action rule && targetMatches target rule

/-- The scan loop of `Ability.prototype.test`: `acc` is the running
`attrsMatchResult` (initially `false`); a strictly-`true` resolution
returns immediately; any other defined resolution replaces `acc`. -/
def testLoop (action : String) (target : Target) (extra : List JSValue) :
    List Rule → JSValue → JSValue
  | [], acc => acc
  | r :: rest, acc =>
    if ruleApplies action target r then
      let res := attrsMatch target extra r
      if res.isTrue then JSValue.bool true
      else testLoop action target extra rest (if res.isUndefined then acc else res)
    else testLoop action target extra rest acc

/-- `Ability.prototype.test(action, target, ...extra)`. -/
def Ability.test (ab : Ability) (action : String) (target : Target)
    (extra : List JSValue) : JSValue :=
  testLoop action target extra ab.rules (JSValue.bool false)

/-- The scan loop instrumented with the list of rules whose attribute
constraint actually gets evaluated, in evaluation order. -/
def testLoopTr (action : String) (target : Target) (extra : List JSValue) :
    List Rule → JSValue → JSValue × List Rule
  | [], acc => (acc, [])
  | r :: rest, acc =>
    if ruleApplies action target r then
      let res := attrsMatch target extra r
      if res.isTrue then (JSValue.bool true, [r])
      else
        let next := testLoopTr action target extra rest
          (if res.isUndefined then acc else res)
        (next.1, r :: next.2)
    else testLoopTr action target extra rest acc

/-- The rules whose attribute constraint one call to `test` evaluates. -/
def testTrace (ab : Ability) (action : String) (target : Target)
    (extra : List JSValue) : List Rule :=
  (testLoopTr action target extra ab.rules (JSValue.bool false)).2

/-- One registry entry: the registered class tag and its configuration
callback.  The source invokes the callback with the ability as receiver
and the actor as argument, mutating the ability; here the callback is
state-passing. -/
structure EntityConfig : Type where
  entity : String
  config : Ability → Actor → Ability

/-- The second argument of `configure`, before the `isFunction` check. -/
inductive ConfigArg : Type where
  | fn : (Ability → Actor → Ability) → ConfigArg
  | notFn : JSValue → ConfigArg

/-- The error thrown by `configure` (the spec's ConfigurationError). -/
structure ConfigurationError : Type where
  message : String
deriving DecidableEq

/-- `configure(entity, config)`, state-passing over the registry: throw
when the config is not callable, otherwise append the entry. -/
def configure (registry : List EntityConfig) (entity : String)
    (config : ConfigArg) : Except ConfigurationError (List EntityConfig) :=
  match config with
  | .notFn _ => Except.error ⟨"Config must be a function!"⟩
  | .fn f => Except.ok (registry ++ [⟨entity, f⟩])

/-- `reset()`: the cleared registry. -/
def reset : List EntityConfig := []

/-- `can(model, action, target, ...extra)`: filter the registry by the
actor's constructor, fold the matching callbacks over a fresh ability,
then evaluate `test`. -/
def can (registry : List EntityConfig) (actor : Actor) (action : String)
    (target : Target) (extra : List JSValue) : JSValue :=
  let ability :=
    (registry.filter (fun item => item.entity == actor.ctor)).foldl
      (fun ab item => item.config ab actor) ⟨[]⟩
  Ability.test ability action target extra

/-- `cannot(...)`: `!result` applied to `can`'s resolved value. -/
def cannot (registry : List EntityConfig) (actor : Actor) (action : String)
    (target : Target) (extra : List JSValue) : JSValue :=
  JSValue.bool (! jsTruthy (can registry actor action target extra))

/-- `authorize(...)`: when the result is not strictly `true` the promise
is rejected with the raw result value, otherwise it resolves to it. -/
def authorize (registry : List EntityConfig) (actor : Actor) (action : String)
    (target : Target) (extra : List JSValue) : Except JSValue JSValue :=
  let result := can registry actor action target extra
  if result.isTrue then Except.ok result else Except.error result

/-! ## Helper lemmas about the evaluator -/

theorem JSValue.isTrue_iff : ∀ v : JSValue, v.isTrue = true ↔ v = JSValue.bool true
  | .undefined => by simp [JSValue.isTrue]
  | .null => by simp [JSValue.isTrue]
  | .bool true => by simp [JSValue.isTrue]
  | .bool false => by simp [JSValue.isTrue]
  | .num _ => by simp [JSValue.isTrue]
  | .str _ => by simp [JSValue.isTrue]
  | .list _ => by simp [JSValue.isTrue]
  | .dict _ => by simp [JSValue.isTrue]

theorem isTrue_eq_false_of_ne {v : JSValue} (h : ¬ v = JSValue.bool true) :
    v.isTrue = false := by
  cases hv : v.isTrue
  · rfl
  · exact absurd ((JSValue.isTrue_iff v).mp hv) h

/-- The instrumented scan loop computes the same result as the plain one. -/
theorem testLoopTr_fst (action : String) (target : Target) (extra : List JSValue)
    (rules : List Rule) : ∀ acc : JSValue,
    (testLoopTr action target extra rules acc).1 =
      testLoop action target extra rules acc := by
  induction rules with
  | nil => intro acc; rfl
  | cons r rest ih =>
    intro acc
    by_cases hA : ruleApplies action target r = true
    · by_cases hT : (attrsMatch target extra r).isTrue = true
      · simp [testLoopTr, testLoop, hA, hT]
      · simp only [Bool.not_eq_true] at hT
        simp [testLoopTr, testLoop, hA, hT, ih]
    · simp only [Bool.not_eq_true] at hA
      simp [testLoopTr, testLoop, hA, ih]

/-- When no matching rule's constraint resolves to strict `true`, the scan
is a fold that retains the last defined resolution. -/
theorem testLoop_noTrue (action : String) (target : Target) (extra : List JSValue)
    (rules : List Rule) :
    ∀ acc : JSValue,
    (∀ r ∈ rules, ruleApplies action target r = true →
      ¬ attrsMatch target extra r = JSValue.bool true) →
    testLoop action target extra rules acc =
      ((rules.filter (ruleApplies action target)).map (attrsMatch target extra)).foldl
        (fun a v => if v.isUndefined then a else v) acc := by
  induction rules with
  | nil => intro acc _; rfl
  | cons r rest ih =>
    intro acc h
    have hrest : ∀ r2 ∈ rest, ruleApplies action target r2 = true →
        ¬ attrsMatch target extra r2 = JSValue.bool true :=
      fun r2 hr2 => h r2 (List.mem_cons_of_mem _ hr2)
    by_cases hA : ruleApplies action target r = true
    · have hT : (attrsMatch target extra r).isTrue = false :=
        isTrue_eq_false_of_ne (h r (List.mem_cons_self r rest) hA)
      simp only [testLoop, hA, if_true, hT, Bool.false_eq_true, if_false,
        List.filter_cons_of_pos hA, List.map_cons, List.foldl_cons]
      exact ih _ hrest
    · simp only [Bool.not_eq_true] at hA
      have hf : List.filter (ruleApplies action target) (r :: rest) =
          List.filter (ruleApplies action target) rest := by
        simp [List.filter_cons, hA]
      rw [hf]
      simp only [testLoop, hA, Bool.false_eq_true, if_false]
      exact ih acc hrest

/-- Once the first matching rule with a strictly-`true` resolution is hit,
the loop returns `true` and the evaluated-constraints trace stops there:
no rule after it is ever inspected. -/
theorem testLoopTr_shortcircuit (action : String) (target : Target)
    (extra : List JSValue) (r : Rule) (post : List Rule)
    (hA : ruleApplies action target r = true)
    (hT : attrsMatch target extra r = JSValue.bool true) :
    ∀ pre : List Rule,
    (∀ p ∈ pre, ruleApplies action target p = true →
      ¬ attrsMatch target extra p = JSValue.bool true) →
    ∀ acc : JSValue,
    testLoopTr action target extra (pre ++ r :: post) acc =
      (JSValue.bool true, (pre ++ [r]).filter (ruleApplies action target)) := by
  intro pre
  induction pre with
  | nil =>
    intro _ acc
    have hT2 : (attrsMatch target extra r).isTrue = true := by rw [hT]; rfl
    simp [testLoopTr, hA, hT2, List.filter_cons]
  | cons p pre ih =>
    intro h acc
    have hrest : ∀ p2 ∈ pre, ruleApplies action target p2 = true →
        ¬ attrsMatch target extra p2 = JSValue.bool true :=
      fun p2 hp2 => h p2 (List.mem_cons_of_mem _ hp2)
    by_cases hp : ruleApplies action target p = true
    · have hpT : (attrsMatch target extra p).isTrue = false :=
        isTrue_eq_false_of_ne (h p (List.mem_cons_self p pre) hp)
      simp [testLoopTr, hp, hpT, List.filter_cons, ih hrest]
    · simp only [Bool.not_eq_true] at hp
      simp [testLoopTr, hp, List.filter_cons, ih hrest]

/-! ## Claims -/

/-- **C1**: `test` scans the rules sequentially in registration order.  If
`r` is the first rule that matches action and target and whose attribute
constraint resolves strictly to `true`, then `test` resolves `true`, and
the trace of evaluated constraints stops at `r`: no later rule's
constraint is evaluated.  If no matching rule's constraint resolves
strictly to `true`, `test` resolves the fold that retains the last
defined constraint result among the matching rules, starting from
`false` — in particular `false` when no rule matched at all. -/
theorem c1_test_scan_short_circuit_and_aggregation (action : String)
    (target : Target) (extra : List JSValue) :
    (∀ (pre post : List Rule) (r : Rule),
      ruleApplies action target r = true →
      attrsMatch target extra r = JSValue.bool true →
      (∀ p ∈ pre, ruleApplies action target p = true →
        ¬ attrsMatch target extra p = JSValue.bool true) →
      Ability.test ⟨pre ++ r :: post⟩ action target extra = JSValue.bool true ∧
      testTrace ⟨pre ++ r :: post⟩ action target extra =
        (pre ++ [r]).filter (ruleApplies action target)) ∧
    (∀ rules : List Rule,
      (∀ p ∈ rules, ruleApplies action target p = true →
        ¬ attrsMatch target extra p = JSValue.bool true) →
      Ability.test ⟨rules⟩ action target extra =
        ((rules.filter (ruleApplies action target)).map (attrsMatch target extra)).foldl
          (fun a v => if v.isUndefined then a else v) (JSValue.bool false)) := by
  constructor
  · intro pre post r hA hT hpre
    have h := testLoopTr_shortcircuit action target extra r post hA hT pre hpre
      (JSValue.bool false)
    constructor
    · show testLoop action target extra (pre ++ r :: post) (JSValue.bool false) =
        JSValue.bool true
      rw [← testLoopTr_fst, h]
    · show (testLoopTr action target extra (pre ++ r :: post) (JSValue.bool false)).2 = _
      rw [h]
  · intro rules h
    exact testLoop_noTrue action target extra rules (JSValue.bool false) h

/-- A published product with plain fields and no accessor method. -/
def demoProduct : Target := ⟨"Product", [("published", JSValue.bool true)], none⟩

/-- A matching rule whose attribute object fails on `demoProduct`. -/
def c1RuleDeny : Rule :=
  ⟨"read", TargetType.cls "Product", Attrs.obj [("published", JSValue.bool false)]⟩

/-- A rule for a different action: it never matches `"read"`. -/
def c1RuleOther : Rule := ⟨"write", TargetType.cls "Product", Attrs.undef⟩

/-- The first matching rule whose constraint resolves strictly `true`. -/
def c1RuleGrant : Rule :=
  ⟨"read", TargetType.cls "Product", Attrs.obj [("published", JSValue.bool true)]⟩

/-- A later rule that would match but must never be inspected. -/
def c1RuleLater : Rule := ⟨"manage", TargetType.all, Attrs.undef⟩

/-- Witness for C1: on a concrete rule list the scan grants at the third
rule and the evaluated-constraint trace skips both the non-matching rule
and everything after the grant. -/
theorem c1_witness_concrete :
    Ability.test ⟨[c1RuleDeny, c1RuleOther, c1RuleGrant, c1RuleLater]⟩
        "read" demoProduct [] = JSValue.bool true ∧
    testTrace ⟨[c1RuleDeny, c1RuleOther, c1RuleGrant, c1RuleLater]⟩
        "read" demoProduct [] = [c1RuleDeny, c1RuleGrant] := by
  have hA : ruleApplies "read" demoProduct c1RuleGrant = true := by
    simp [ruleApplies, actionMatches, targetMatches, c1RuleGrant, demoProduct]
  have hT : attrsMatch demoProduct [] c1RuleGrant = JSValue.bool true := by
    simp [attrsMatch, c1RuleGrant, jsMatches, get, demoProduct, lookupField, jsEquals]
  have hDeny : attrsMatch demoProduct [] c1RuleDeny = JSValue.bool false := by
    simp [attrsMatch, c1RuleDeny, jsMatches, get, demoProduct, lookupField, jsEquals]
  have hOther : ruleApplies "read" demoProduct c1RuleOther = false := by
    simp [ruleApplies, actionMatches, targetMatches, c1RuleOther, demoProduct]
  have hpre : ∀ p ∈ [c1RuleDeny, c1RuleOther],
      ruleApplies "read" demoProduct p = true →
      ¬ attrsMatch demoProduct [] p = JSValue.bool true := by
    intro p hp hap
    rcases List.mem_cons.mp hp with h1 | h2
    · subst h1; rw [hDeny]; simp
    · have h3 := List.mem_singleton.mp h2
      subst h3; rw [hOther] at hap; simp at hap
  have h := (c1_test_scan_short_circuit_and_aggregation "read" demoProduct []).1
    [c1RuleDeny, c1RuleOther] [c1RuleLater] c1RuleGrant hA hT hpre
  refine ⟨h.1, ?_⟩
  have h2 := h.2
  have hfil : List.filter (ruleApplies "read" demoProduct)
      ([c1RuleDeny, c1RuleOther] ++ [c1RuleGrant]) = [c1RuleDeny, c1RuleGrant] := by
    simp [List.filter_cons, ruleApplies, actionMatches, targetMatches,
      c1RuleDeny, c1RuleOther, c1RuleGrant, demoProduct]
  rw [hfil] at h2
  exact h2

/-- The configuration of the repo's own test suite: a `User` may `read` a
`Product` when the predicate `product.get('published') === true` holds. -/
def demoConfigPublished : EntityConfig :=
  ⟨"User", fun ab _ =>
    Ability.can ab (Arg.single "read") (Arg.single (TargetType.cls "Product"))
      (Attrs.fn (fun _ product _ => JSValue.bool (get product "published").isTrue))⟩

/-- A `User` actor instance. -/
def demoUser : Actor := ⟨"User", []⟩

/-- `new Product()`: empty attributes behind a `get` accessor. -/
def demoPrivateProduct : Target :=
  ⟨"Product", [], some (fun p => lookupField [] p)⟩

/-- `new Product({published: true})` behind a `get` accessor. -/
def demoPublicProduct : Target :=
  ⟨"Product", [], some (fun p => lookupField [("published", JSValue.bool true)] p)⟩

/-- **C2** (evaluation at the failing input): on the repo's own test
scenario, `authorize` resolves the granted value for the public product,
but for the private product it rejects with the raw result value
`false` — a bare boolean carrying neither a 401 status code nor an
"unauthorized" classification, contradicting the claim and the repo's
test `'throw an exception'`, which asserts `e.status === 401`. -/
theorem c2_authorize_rejects_with_raw_result :
    authorize [demoConfigPublished] demoUser "read" demoPublicProduct [] =
      Except.ok (JSValue.bool true) ∧
    authorize [demoConfigPublished] demoUser "read" demoPrivateProduct [] =
      Except.error (JSValue.bool false) := by
  exact ⟨rfl, rfl⟩

/-- **C3**: `cannot` resolves the boolean negation (JavaScript `!`) of
the value `can` resolves for the same arguments: always a strict boolean
negating the truthiness of `can`'s result, hence the strict negation
whenever `can` resolves a boolean. -/
theorem c3_cannot_is_negation_of_can (registry : List EntityConfig) (actor : Actor)
    (action : String) (target : Target) (extra : List JSValue) :
    cannot registry actor action target extra =
      JSValue.bool (! jsTruthy (can registry actor action target extra)) ∧
    ∀ b : Bool, can registry actor action target extra = JSValue.bool b →
      cannot registry actor action target extra = JSValue.bool (! b) := by
  refine ⟨rfl, ?_⟩
  intro b hb
  simp [cannot, hb, jsTruthy]

/-- Witness for C3: on the repo's test scenario `can` resolves `true` and
`cannot` resolves `false`. -/
theorem c3_witness_concrete :
    cannot [demoConfigPublished] demoUser "read" demoPublicProduct [] =
      JSValue.bool false := by
  have h := (c3_cannot_is_negation_of_can [demoConfigPublished] demoUser "read"
    demoPublicProduct []).2 true rfl
  simpa using h

/-- **C4**: a rule's action matches iff the requested action equals it or
the rule's action is the wildcard `"manage"`; a rule's target matches iff
the target's runtime type equals the rule's target type or the rule's
target type is the wildcard `"all"`.  Both tests are the evaluation-time
matchers used by the scan. -/
theorem c4_wildcard_matching (action : String) (target : Target) (rule : Rule) :
    (actionMatches action rule = true ↔
      action = rule.action ∨ rule.action = "manage") ∧
    (targetMatches target rule = true ↔
      TargetType.cls target.ctor = rule.target ∨ rule.target = TargetType.all) := by
  constructor
  · simp [actionMatches]
  · simp [targetMatches]

/-- Pushing one rule per target appends the mapped target list. -/
theorem foldl_push_targets (a : String) (attrs : Attrs) (ts : List TargetType) :
    ∀ ab : Ability,
      (ts.foldl (fun ab2 t => { rules := ab2.rules ++ [⟨a, t, attrs⟩] }) ab).rules
        = ab.rules ++ ts.map (fun t => ⟨a, t, attrs⟩) := by
  induction ts with
  | nil => intro ab; simp
  | cons t ts ih =>
    intro ab
    simp only [List.foldl_cons, List.map_cons]
    rw [ih]
    simp [List.append_assoc]

/-- The nested forEach of `addRule` appends the full cross product. -/
theorem foldl_push_actions (attrs : Attrs) (ts : List TargetType) (as : List String) :
    ∀ ab : Ability,
      (as.foldl (fun ab1 a =>
          ts.foldl (fun ab2 t => { rules := ab2.rules ++ [⟨a, t, attrs⟩] }) ab1) ab).rules
        = ab.rules ++ as.flatMap (fun a => ts.map (fun t => ⟨a, t, attrs⟩)) := by
  induction as with
  | nil => intro ab; simp
  | cons a as ih =>
    intro ab
    simp only [List.foldl_cons, List.flatMap_cons]
    rw [ih, foldl_push_targets]
    simp [List.append_assoc]

theorem flatMap_cross_length (as : List String) (ts : List TargetType) (attrs : Attrs) :
    (as.flatMap (fun a => ts.map (fun t => (⟨a, t, attrs⟩ : Rule)))).length
      = as.length * ts.length := by
  induction as with
  | nil => simp
  | cons a as ih =>
    simp only [List.flatMap_cons, List.length_append, List.length_map, ih,
      List.length_cons]
    rw [Nat.succ_mul]
    omega

theorem flatMap_cross_attrs (as : List String) (ts : List TargetType) (attrs : Attrs) :
    (as.flatMap (fun a => ts.map (fun t => (⟨a, t, attrs⟩ : Rule)))).map Rule.attrs
      = List.replicate (as.length * ts.length) attrs := by
  induction as with
  | nil => simp
  | cons a as ih =>
    simp only [List.flatMap_cons, List.map_append, ih, List.length_cons]
    have h1 : (ts.map (fun t => (⟨a, t, attrs⟩ : Rule))).map Rule.attrs
        = List.replicate ts.length attrs := by
      rw [List.map_map]
      have h2 : (Rule.attrs ∘ fun t => (⟨a, t, attrs⟩ : Rule)) = fun _ => attrs := rfl
      rw [h2, List.map_const']
    rw [h1, Nat.succ_mul, Nat.add_comm (as.length * ts.length) ts.length,
      List.replicate_add]

/-- **C5**: one builder call with a list of `m` actions and a list of `k`
targets appends exactly the `m*k` rules of the cross product, in
declaration order (for each action, each target), with every appended
rule holding the same attrs value; single non-array arguments behave as
one-element arrays. -/
theorem c5_addRule_cross_product (ab : Ability) (as : List String)
    (ts : List TargetType) (attrs : Attrs) (a : String) (t : TargetType) :
    (Ability.addRule ab (Arg.arr as) (Arg.arr ts) attrs).rules
      = ab.rules ++ as.flatMap (fun a2 => ts.map (fun t2 => ⟨a2, t2, attrs⟩)) ∧
    (Ability.addRule ab (Arg.arr as) (Arg.arr ts) attrs).rules.length
      = ab.rules.length + as.length * ts.length ∧
    (as.flatMap (fun a2 => ts.map (fun t2 => (⟨a2, t2, attrs⟩ : Rule)))).map Rule.attrs
      = List.replicate (as.length * ts.length) attrs ∧
    Ability.addRule ab (Arg.single a) (Arg.single t) attrs
      = Ability.addRule ab (Arg.arr [a]) (Arg.arr [t]) attrs := by
  refine ⟨foldl_push_actions attrs ts as ab, ?_, flatMap_cross_attrs as ts attrs, rfl⟩
  have h : (Ability.addRule ab (Arg.arr as) (Arg.arr ts) attrs).rules
      = ab.rules ++ as.flatMap (fun a2 => ts.map (fun t2 => ⟨a2, t2, attrs⟩)) :=
    foldl_push_actions attrs ts as ab
  rw [h, List.length_append, flatMap_cross_length]

/-- **C6**: `can` builds one fresh ability by running, in registration
order, exactly the config callbacks whose registered entity equals the
actor's runtime type, then evaluates `test` on the fully built ability;
an entry registered for any other type — in particular a superclass of
the actor's class — has no effect on the outcome. -/
theorem c6_registry_filtering (registry : List EntityConfig) (actor : Actor)
    (action : String) (target : Target) (extra : List JSValue)
    (pre post : List EntityConfig) (e : EntityConfig) :
    can registry actor action target extra =
      Ability.test
        (((registry.filter (fun item => item.entity == actor.ctor)).map
            EntityConfig.config).foldl (fun ab f => f ab actor) ⟨[]⟩)
        action target extra ∧
    (e.entity ≠ actor.ctor →
      can (pre ++ e :: post) actor action target extra =
        can (pre ++ post) actor action target extra) := by
  constructor
  · simp [can, List.foldl_map]
  · intro h
    have hf : (e.entity == actor.ctor) = false := beq_eq_false_iff_ne.mpr h
    simp [can, List.filter_append, List.filter_cons, hf]

/-- A config registered for a different type than `demoUser`'s. -/
def c6CfgAdmin : EntityConfig :=
  ⟨"Admin", fun ab _ =>
    Ability.can ab (Arg.single "manage") (Arg.single TargetType.all) Attrs.undef⟩

/-- Witness for C6: dropping the `Admin` entry does not change the
outcome for a `User` actor. -/
theorem c6_witness_concrete :
    can [demoConfigPublished, c6CfgAdmin] demoUser "read" demoPublicProduct [] =
      can [demoConfigPublished] demoUser "read" demoPublicProduct [] := by
  have h := (c6_registry_filtering [] demoUser "read" demoPublicProduct []
    [demoConfigPublished] [] c6CfgAdmin).2 (by decide)
  simpa using h

/-- The forEach-with-flag loop of `matches` computes the conjunction of
the per-key comparisons. -/
theorem jsMatches_flag_eq_all (obj : Target) (props : List (String × JSValue)) :
    ∀ m0 : Bool,
      props.foldl (fun m kv => if jsEquals (get obj kv.1) kv.2 then m else false) m0
        = (m0 && props.all (fun kv => jsEquals (get obj kv.1) kv.2)) := by
  induction props with
  | nil => intro m0; simp
  | cons kv props ih =>
    intro m0
    rw [List.foldl_cons, List.all_cons]
    cases h : jsEquals (get obj kv.1) kv.2
    · rw [if_neg (by simp), ih false]
      simp
    · rw [if_pos rfl, ih m0]
      simp

/-- **C7**: an attribute-object rule resolves to the boolean of
`matches`; `matches` succeeds iff every key's fetched value deep-equals
the expectation; fetching uses the callable `get` member when the target
has one and direct field access otherwise; an absent property reads
`undefined`, which fails deep equality against every defined
expectation. -/
theorem c7_attribute_object_semantics :
    (∀ (target : Target) (extra : List JSValue) (action : String)
        (tt : TargetType) (props : List (String × JSValue)),
      attrsMatch target extra ⟨action, tt, Attrs.obj props⟩
        = JSValue.bool (jsMatches target props)) ∧
    (∀ (target : Target) (props : List (String × JSValue)),
      jsMatches target props = true ↔
        ∀ kv ∈ props, jsEquals (get target kv.1) kv.2 = true) ∧
    (∀ (m : Target) (p : String) (g : String → JSValue),
      (m.getMember = some g → get m p = g p) ∧
      (m.getMember = none → get m p = lookupField m.fields p)) ∧
    (∀ (fields : List (String × JSValue)) (p : String),
      (∀ kv ∈ fields, kv.1 ≠ p) → lookupField fields p = JSValue.undefined) ∧
    (∀ v : JSValue, v ≠ JSValue.undefined → jsEquals JSValue.undefined v = false) := by
  refine ⟨fun _ _ _ _ _ => rfl, ?_, ?_, ?_, ?_⟩
  · intro target props
    simp only [jsMatches]
    rw [jsMatches_flag_eq_all]
    simp [List.all_eq_true]
  · intro m p g
    constructor <;> intro h <;> simp [get, h]
  · intro fields p h
    have hf : fields.find? (fun kv => kv.1 == p) = none := by
      rw [List.find?_eq_none]
      intro kv hkv
      simpa using h kv hkv
    simp [lookupField, hf]
  · intro v hv
    cases v
    case undefined => exact absurd rfl hv
    all_goals simp [jsEquals]

/-- Witness for C7: the accessor route reads the public product's
`published` attribute; an absent field reads `undefined`; `undefined`
fails deep equality against a defined expectation. -/
theorem c7_witness_concrete :
    get demoPublicProduct "published" = JSValue.bool true ∧
    lookupField [("other", JSValue.num 1)] "published" = JSValue.undefined ∧
    jsEquals JSValue.undefined (JSValue.bool true) = false := by
  refine ⟨?_, ?_, ?_⟩
  · have h := (c7_attribute_object_semantics.2.2.1 demoPublicProduct "published"
      (fun p => lookupField [("published", JSValue.bool true)] p)).1 rfl
    rw [h]
    simp [lookupField]
  · exact c7_attribute_object_semantics.2.2.2.1 [("other", JSValue.num 1)] "published"
      (by intro kv hkv; simp at hkv; simp [hkv])
  · exact c7_attribute_object_semantics.2.2.2.2 (JSValue.bool true) (by simp)

/-- **C8**: `configure` with a non-callable config fails with the
configuration error and yields no new registry (the registry is
unchanged); with a callable config it appends the entry, so registering
the same type twice accumulates both entries in order. -/
theorem c8_configure_append_or_error (registry : List EntityConfig)
    (entity : String) (v : JSValue) (f g : Ability → Actor → Ability) :
    configure registry entity (ConfigArg.notFn v) =
      Except.error ⟨"Config must be a function!"⟩ ∧
    configure registry entity (ConfigArg.fn f) =
      Except.ok (registry ++ [⟨entity, f⟩]) ∧
    (configure registry entity (ConfigArg.fn f)).bind
        (fun r2 => configure r2 entity (ConfigArg.fn g)) =
      Except.ok (registry ++ [⟨entity, f⟩, ⟨entity, g⟩]) := by
  refine ⟨rfl, rfl, ?_⟩
  simp [configure, Except.bind, List.append_assoc]

/-- **C9**: a defined attrs value that is neither callable nor a plain
object resolves to `true`, exactly as when attrs is omitted, so such a
rule grants unconditionally once action and target match. -/
theorem c9_unknown_attrs_grants (target : Target) (extra : List JSValue)
    (action : String) (tt : TargetType) (v : NonObjVal) :
    attrsMatch target extra ⟨action, tt, Attrs.other v⟩ = JSValue.bool true ∧
    attrsMatch target extra ⟨action, tt, Attrs.other v⟩ =
      attrsMatch target extra ⟨action, tt, Attrs.undef⟩ := by
  exact ⟨rfl, rfl⟩

/-- **C10**: a predicate constraint is invoked with the rule itself as
receiver — it observes the rule's own action and target fields — and
with the argument list `target :: extra` from the originating call. -/
theorem c10_predicate_invocation (r : Rule)
    (p : Receiver → Target → List JSValue → JSValue)
    (target : Target) (extra : List JSValue) (h : r.attrs = Attrs.fn p) :
    attrsMatch target extra r = p ⟨r.action, r.target⟩ target extra := by
  cases r with
  | mk action tt attrs => cases attrs <;> simp_all [attrsMatch]

/-- A predicate that reports the action of the rule it was invoked on. -/
def c10Predicate : Receiver → Target → List JSValue → JSValue :=
  fun recv _ _ => JSValue.str recv.action

def c10Rule : Rule := ⟨"read", TargetType.cls "Product", Attrs.fn c10Predicate⟩

/-- Witness for C10: the predicate observes its own rule's action. -/
theorem c10_witness_concrete :
    attrsMatch demoPublicProduct [] c10Rule = JSValue.str "read" := by
  have h := c10_predicate_invocation c10Rule c10Predicate demoPublicProduct [] rfl
  simpa [c10Predicate, c10Rule] using h

end CanCan
